import Mathlib

/-!
Verification of the natural-language specification of
`aws-actions/aws-codebuild-run-build` against a shallow embedding of
`src/code-build.js`.

The embedding models:
  * `logName` (ARN parsing helped by a model of JavaScript
    `String.prototype.split` on a non-empty separator),
  * `waitForBuildEndTime` (the poll loop), driven by an explicit script of
    fetch outcomes standing for the remote responses of
    `codeBuild.batchGetBuilds` / `cloudWatchLogs.getLogEvents`,
  * `inputs2Parameters` with the process environment passed explicitly,
  * `githubInputs` on top of a model of `@actions/core` `getInput`.
-/

/-! ## String helpers modelling JavaScript primitives -/

/-- Model of JavaScript `String.prototype.trimEnd`: drop trailing
whitespace characters. -/
def jsTrimEnd (s : String) : String :=
  ⟨(s.data.reverse.dropWhile Char.isWhitespace).reverse⟩

/-- Model of JavaScript `String.prototype.trim`: drop leading and
trailing whitespace characters. -/
def jsTrim (s : String) : String :=
  ⟨((s.data.dropWhile Char.isWhitespace).reverse.dropWhile Char.isWhitespace).reverse⟩

/-- Model of JavaScript `String.prototype.startsWith`. -/
def jsStartsWith (s pre : String) : Bool :=
  pre.data.isPrefixOf s.data

/-- `occurs sep l` decides whether the non-empty character sequence `sep`
occurs as a contiguous run inside `l` (used to model both JavaScript
`String.prototype.search` on a literal pattern and occurrence reasoning
for `split`). -/
def occurs (sep : List Char) : List Char → Bool
  | [] => false
  | x :: xs => sep.isPrefixOf (x :: xs) || occurs sep xs

/-- Worker for the model of JavaScript `String.prototype.split` with the
non-empty separator `c :: cs`: scan left to right, cut at each
non-overlapping occurrence of the separator.  `acc` is the chunk being
accumulated.  The `fuel` argument makes the recursion structural; every
call site supplies at least the length of the scanned list, so the
fuel-exhausted equation is never reached. -/
def splitChars (c : Char) (cs : List Char) : Nat → List Char → List Char → List (List Char)
  | _, [], acc => [acc]
  | 0, l, acc => [acc ++ l]
  | fuel + 1, x :: xs, acc =>
    if (c :: cs).isPrefixOf (x :: xs) then
      acc :: splitChars c cs fuel (xs.drop cs.length) []
    else
      splitChars c cs fuel xs (acc ++ [x])

/-- Model of JavaScript `s.split(sep)` for a non-empty literal separator. -/
def jsSplit (s sep : String) : List String :=
  match sep.data with
  | [] => [s]
  | c :: cs => (splitChars c cs s.data.length s.data []).map String.mk

/-- JavaScript truthiness of a possibly-absent string (`undefined` and the
empty string are falsy). -/
def jsTruthy (o : Option String) : Bool :=
  match o with
  | none => false
  | some s => !s.isEmpty

/-- JavaScript `a || b` for a possibly-absent string `a` with a string
default `b`. -/
def jsOr (o : Option String) (d : String) : String :=
  match o with
  | none => d
  | some s => if s.isEmpty then d else s

/-- JavaScript `s || undefined`: an empty string collapses to `undefined`. -/
def jsOrUndef (s : String) : Option String :=
  if s.isEmpty then none else some s

/-! ## `logName` (src/code-build.js lines 367-382) -/

/-- Result shape of `logName`: `{ logGroupName, logStreamName }`, each
possibly `undefined`. -/
structure LogNames where
  logGroupName : Option String
  logStreamName : Option String
deriving Repr, DecidableEq

/-- Shallow embedding of `logName(Arn)` from src/code-build.js:
split on `":log-group:"`, take the last piece (`pop`), split that on
`":log-stream:"`, and keep the two pieces unless either equals the
literal string `"null"`.  An absent or empty (falsy) input yields both
fields `undefined`. -/
def logName (arn : Option String) : LogNames :=
  match arn with
  | none => ⟨none, none⟩
  | some a =>
    if a.isEmpty then ⟨none, none⟩
    else
      let afterGroup := (jsSplit a ":log-group:").getLastD ""
      let parts := jsSplit afterGroup ":log-stream:"
      let logGroupName := parts.headD ""
      let logStreamName := parts[1]?
      if logGroupName ≠ "null" ∧ logStreamName ≠ some "null" then
        ⟨some logGroupName, logStreamName⟩
      else
        ⟨none, none⟩





/-! ## The poll loop `waitForBuildEndTime` (src/code-build.js lines 69-187)

The loop is driven by an explicit script: one `FetchOutcome` per
iteration, standing for the joined result of the concurrently issued
`batchGetBuilds` / `getLogEvents` calls (`Promise.all` rejects with the
error when either call fails).  The `jitter` of a failure models the
value `Math.floor(Math.random() * (updateBackOff * 2 ** throttleCount))`
drawn in the rate-limit branch. -/

/-- One build record as returned inside `batchGetBuilds().builds[0]`:
`endTime` presence means the remote build finished; `logsArn` is
`build.logs.cloudWatchLogsArn`. -/
structure BuildStatus where
  id : String
  endTime : Option Nat
  buildStatus : Option String
  logsArn : Option String
deriving Repr, DecidableEq

/-- One `getLogEvents` response: the event messages plus the new cursor. -/
structure LogBatch where
  events : List String
  nextForwardToken : Option String
deriving Repr, DecidableEq

/-- The configuration record threaded through the loop.  In the source it
is `{ updateInterval, updateBackOff, hideCloudWatchLogs }`; a JavaScript
object lacking the `hideCloudWatchLogs` key is modelled by the field
being `false` (both are falsy). -/
structure PollConfig where
  updateInterval : Nat
  updateBackOff : Nat
  hideCloudWatchLogs : Bool
deriving Repr, DecidableEq

/-- Scripted result of one iteration's remote fetches. -/
inductive FetchOutcome where
  | failure (message : String) (jitter : Nat)
  | success (status : BuildStatus) (batch : LogBatch)
deriving Repr, DecidableEq

/-- The state carried between iterations of `waitForBuildEndTime`:
the `{ id, logs }` build object, the config, and the explicit arguments
`seqEmptyLogs`, `totalEvents`, `throttleCount`, `nextToken` (already
defaulted to `0` / `undefined` as by lines 80-82). -/
structure IterState where
  build : BuildStatus
  cfg : PollConfig
  seqEmptyLogs : Nat
  totalEvents : Nat
  throttleCount : Nat
  nextToken : Option String
deriving Repr, DecidableEq

/-- The guard of the `getLogEvents` call (line 93-95):
`!hideCloudWatchLogs && logGroupName && ...` — the call is only issued
when logs are not hidden and the parsed log group name is truthy. -/
def shouldFetchLogs (st : IterState) : Bool :=
  !st.cfg.hideCloudWatchLogs && jsTruthy (logName st.build.logsArn).logGroupName

/-- The event list the iteration actually observes: the scripted batch if
the log fetch was issued, otherwise the destructuring defaults
(`cloudWatch = {}`, `events = []`). -/
def effectiveEvents (st : IterState) (batch : LogBatch) : List String :=
  if shouldFetchLogs st then batch.events else []

/-- The cursor passed to the next iteration (`nextForwardToken`,
`undefined` when `getLogEvents` was not called). -/
def effectiveToken (st : IterState) (batch : LogBatch) : Option String :=
  if shouldFetchLogs st then batch.nextForwardToken else none

/-- The quiescence accounting of lines 148-152: an empty (effective)
event list bumps `seqEmptyLogs` when events have ever been seen or the
build reports an `endTime`; any other outcome resets it to `0`. -/
def seqUpdate (st : IterState) (current : BuildStatus) (batch : LogBatch) : Nat :=
  if (effectiveEvents st batch).length = 0 ∧
      (0 < st.totalEvents ∨ current.endTime.isSome = true) then
    st.seqEmptyLogs + 1
  else 0

/-- The error message the rate-limit branch looks for (line 114). -/
def rateExceeded : String := "Rate exceeded"

/-- The state built by the rate-limit retry (lines 126-134): same build,
cursor and counters, `throttleCount` incremented, and the config rebuilt
as `{ updateInterval: newWait, updateBackOff }` — without
`hideCloudWatchLogs`. -/
def throttleState (st : IterState) (jitter : Nat) : IterState :=
  { st with
    cfg := { updateInterval := st.cfg.updateInterval + jitter,
             updateBackOff := st.cfg.updateBackOff,
             hideCloudWatchLogs := false },
    throttleCount := st.throttleCount + 1 }

/-- Result of one iteration of the loop body. -/
inductive StepResult where
  | finished (status : BuildStatus) (emitted : List String)
  | throttled (next : IterState) (sleep : Nat)
  | fatal (message : String)
  | again (next : IterState) (sleep : Nat) (emitted : List String)
deriving Repr, DecidableEq

/-- One iteration of `waitForBuildEndTime`, translated from
src/code-build.js lines 89-186:
  * a failed fetch whose message contains `"Rate exceeded"` computes
    `newWait = updateInterval + jitteredBackOff`, increments
    `throttleCount`, sleeps `newWait` and retries with the same build,
    cursor and counters, rebuilding the config as
    `{ updateInterval: newWait, updateBackOff }` (so `hideCloudWatchLogs`
    is dropped, i.e. falsy, in the retry);
  * any other failed fetch is rethrown;
  * on success: an empty event list bumps `seqEmptyLogs` when events have
    ever been seen or the build has an `endTime`, a non-empty list resets
    it; messages are `trimEnd`ed and emitted; the loop returns `current`
    once `current.endTime` is set and `seqEmptyLogs >= 2`, and otherwise
    sleeps `updateInterval / 2` (build ended, never throttled) or
    `updateInterval` before the next iteration. -/
def pollStep (st : IterState) (f : FetchOutcome) : StepResult :=
  match f with
  | .failure msg jitter =>
    if occurs rateExceeded.data msg.data then
      let newWait := st.cfg.updateInterval + jitter
      .throttled
        { st with
          cfg := { updateInterval := newWait,
                   updateBackOff := st.cfg.updateBackOff,
                   hideCloudWatchLogs := false },
          throttleCount := st.throttleCount + 1 }
        newWait
    else
      .fatal msg
  | .success current batch =>
    let events := effectiveEvents st batch
    let seq :=
      if events.length = 0 ∧ (0 < st.totalEvents ∨ current.endTime.isSome) then
        st.seqEmptyLogs + 1
      else 0
    let total := st.totalEvents + events.length
    let emitted := events.map jsTrimEnd
    if current.endTime.isSome ∧ 2 ≤ seq then
      .finished current emitted
    else
      .again
        { build := current
          cfg := st.cfg
          seqEmptyLogs := seq
          totalEvents := total
          throttleCount := st.throttleCount
          nextToken := effectiveToken st batch }
        (if current.endTime.isSome ∧ st.throttleCount = 0 then
          st.cfg.updateInterval / 2
        else st.cfg.updateInterval)
        emitted

/-- Terminal outcome of a scripted loop execution. -/
inductive PollResult where
  | finished (status : BuildStatus)
  | fatal (message : String)
  | outOfScript
deriving Repr, DecidableEq

/-- Observable trace of a scripted loop execution: the result, the
messages written to the output sink in order, the sleeps performed, and
the unconsumed part of the script. -/
structure PollRun where
  result : PollResult
  output : List String
  sleeps : List Nat
  remaining : List FetchOutcome
deriving Repr, DecidableEq

/-- Run the loop over a script of fetch outcomes. -/
def pollLoop : IterState → List FetchOutcome → PollRun
  | _, [] => ⟨.outOfScript, [], [], []⟩
  | st, f :: rest =>
    match pollStep st f with
    | .finished current emitted => ⟨.finished current, emitted, [], rest⟩
    | .fatal msg => ⟨.fatal msg, [], [], rest⟩
    | .throttled st' sleep =>
      let r := pollLoop st' rest
      ⟨r.result, r.output, sleep :: r.sleeps, r.remaining⟩
    | .again st' sleep emitted =>
      let r := pollLoop st' rest
      ⟨r.result, emitted ++ r.output, sleep :: r.sleeps, r.remaining⟩

/-- Entry point as called from `build`: counters start at `0`, the log
cursor starts `undefined`. -/
def waitForBuildEndTime (b : BuildStatus) (cfg : PollConfig)
    (script : List FetchOutcome) : PollRun :=
  pollLoop ⟨b, cfg, 0, 0, 0, none⟩ script

/-- Messages of the successful entries of a script, trimmed, in order. -/
def scriptMsgs : List FetchOutcome → List String
  | [] => []
  | .failure _ _ :: r => scriptMsgs r
  | .success _ bt :: r => bt.events.map jsTrimEnd ++ scriptMsgs r


/-! ## `inputs2Parameters` (src/code-build.js lines 286-342) and
`githubInputs` (lines 189-284)

The process environment and the action-input table are passed explicitly
as association lists; an absent JavaScript object field is an `Option`
that is `none`. -/

/-- Normalized input bag produced by `githubInputs` and consumed by
`inputs2Parameters`.  `projectName` is an `Option` so that an input bag
lacking the field (possible for a direct caller of `inputs2Parameters`)
is representable. -/
structure Inputs where
  projectName : Option String
  owner : String
  repo : String
  sourceVersion : Option String
  sourceTypeOverride : Option String
  sourceLocationOverride : Option String
  buildspecOverride : Option String
  computeTypeOverride : Option String
  environmentTypeOverride : Option String
  imageOverride : Option String
  imagePullCredentialsTypeOverride : Option String
  envPassthrough : List String
  updateInterval : Nat
  updateBackOff : Nat
  disableSourceOverride : Bool
  hideCloudWatchLogs : Bool
  disableGithubEnvVars : Bool
  artifactsTypeOverride : Option String
  stopOnSignals : List String
deriving Repr, DecidableEq

/-- One entry of `environmentVariablesOverride`. -/
structure EnvVar where
  name : String
  value : String
  type : String
deriving Repr, DecidableEq

/-- The `startBuild` parameter object built by `inputs2Parameters`.
`artifactsOverrideType` is the `type` inside the spread
`artifactsOverride` object, `none` when that object is absent. -/
structure Parameters where
  projectName : Option String
  sourceVersion : Option String
  sourceTypeOverride : Option String
  sourceLocationOverride : Option String
  buildspecOverride : Option String
  artifactsOverrideType : Option String
  computeTypeOverride : Option String
  environmentTypeOverride : Option String
  imageOverride : Option String
  imagePullCredentialsTypeOverride : Option String
  environmentVariablesOverride : List EnvVar
deriving Repr, DecidableEq

/-- Shallow embedding of `inputs2Parameters(inputs)`, with the
`process.env` snapshot `env` passed explicitly (ordered key/value pairs).
The environment-variable override list keeps exactly the entries whose
key satisfies `(!disableGithubEnvVars && key.startsWith("GITHUB_")) ||
envPassthrough.includes(key)`, each typed `"PLAINTEXT"`. -/
def inputs2Parameters (inputs : Inputs) (env : List (String × String)) : Parameters :=
  let sourceOverride :=
    if !inputs.disableSourceOverride then
      (inputs.sourceVersion,
       some (jsOr inputs.sourceTypeOverride "GITHUB"),
       some (jsOr inputs.sourceLocationOverride
         ("https://github.com/" ++ inputs.owner ++ "/" ++ inputs.repo ++ ".git")))
    else (none, none, none)
  let artifactsOverrideType :=
    if jsTruthy inputs.artifactsTypeOverride then inputs.artifactsTypeOverride else none
  let environmentVariablesOverride :=
    (env.filter fun kv =>
        (!inputs.disableGithubEnvVars && jsStartsWith kv.1 "GITHUB_")
          || inputs.envPassthrough.contains kv.1).map
      fun kv => ⟨kv.1, kv.2, "PLAINTEXT"⟩
  { projectName := inputs.projectName
    sourceVersion := sourceOverride.1
    sourceTypeOverride := sourceOverride.2.1
    sourceLocationOverride := sourceOverride.2.2
    buildspecOverride := inputs.buildspecOverride
    artifactsOverrideType := artifactsOverrideType
    computeTypeOverride := inputs.computeTypeOverride
    environmentTypeOverride := inputs.environmentTypeOverride
    imageOverride := inputs.imageOverride
    imagePullCredentialsTypeOverride := inputs.imagePullCredentialsTypeOverride
    environmentVariablesOverride := environmentVariablesOverride }

/-- Model of `@actions/core` `getInput(name, { required })`: read the
supplied action-input table, default to the empty string, fail when a
required input is empty, and return the trimmed value. -/
def coreGetInput (raw : List (String × String)) (name : String)
    (required : Bool) : Except String String :=
  let val := (raw.lookup name).getD ""
  if required && val.isEmpty then
    .error ("Input required and not supplied: " ++ name)
  else
    .ok (jsTrim val)

/-- Integer parse used for the interval inputs.  JavaScript
`parseInt(v, 10)` reads the leading decimal digits; the `NaN` outcome
(no digits) is modelled as `none` and collapsed to `0` by the caller,
which no claim exercises. -/
def jsParseInt (s : String) : Option Nat :=
  let ds := s.data.takeWhile Char.isDigit
  if ds.isEmpty then none
  else some (ds.foldl (fun n ch => n * 10 + (ch.toNat - 48)) 0)

/-- Comma-splitting used for `env-vars-for-codebuild` and
`stop-on-signals`: split, trim each item, drop empties. -/
def splitTrimFilter (s : String) : List String :=
  ((jsSplit s ",").map jsTrim).filter fun i => i ≠ ""

/-- Shallow embedding of `githubInputs()`.  `raw` is the action-input
table read by `core.getInput`, `env` the process environment,
`owner`/`repo` come from `github.context.repo` and `prHeadSha` is
`github.context.payload.pull_request?.head?.sha`.  A thrown error
(required input missing, or the `assert` on the source version) is the
`Except.error` case. -/
def githubInputs (raw env : List (String × String)) (owner repo : String)
    (prHeadSha : Option String) : Except String Inputs := do
  let projectName ← coreGetInput raw "project-name" true
  let disableSourceOverride := (← coreGetInput raw "disable-source-override" false) = "true"
  let svOverride ← coreGetInput raw "source-version-override" false
  let sourceVersion : Option String :=
    if !svOverride.isEmpty then some svOverride
    else if env.lookup "GITHUB_EVENT_NAME" = some "pull_request" then prHeadSha
    else env.lookup "GITHUB_SHA"
  if !jsTruthy sourceVersion then
    throw "No source version could be evaluated."
  let sourceTypeOverride := jsOrUndef (← coreGetInput raw "source-type-override" false)
  let sourceLocationOverride := jsOrUndef (← coreGetInput raw "source-location-override" false)
  let buildspecOverride := jsOrUndef (← coreGetInput raw "buildspec-override" false)
  let computeTypeOverride := jsOrUndef (← coreGetInput raw "compute-type-override" false)
  let environmentTypeOverride := jsOrUndef (← coreGetInput raw "environment-type-override" false)
  let imageOverride := jsOrUndef (← coreGetInput raw "image-override" false)
  let imagePullCredentialsTypeOverride :=
    jsOrUndef (← coreGetInput raw "image-pull-credentials-type-override" false)
  let envPassthrough := splitTrimFilter (← coreGetInput raw "env-vars-for-codebuild" false)
  let updateInterval :=
    ((jsParseInt (jsOr (jsOrUndef (← coreGetInput raw "update-interval" false)) "30")).getD 0) * 1000
  let updateBackOff :=
    ((jsParseInt (jsOr (jsOrUndef (← coreGetInput raw "update-back-off" false)) "15")).getD 0) * 1000
  let hideCloudWatchLogs := (← coreGetInput raw "hide-cloudwatch-logs" false) = "true"
  let disableGithubEnvVars := (← coreGetInput raw "disable-github-env-vars" false) = "true"
  let artifactsTypeOverride := jsOrUndef (← coreGetInput raw "artifacts-type-override" false)
  let stopOnSignals := splitTrimFilter (← coreGetInput raw "stop-on-signals" false)
  return { projectName := some projectName
           owner := owner
           repo := repo
           sourceVersion := sourceVersion
           sourceTypeOverride := sourceTypeOverride
           sourceLocationOverride := sourceLocationOverride
           buildspecOverride := buildspecOverride
           computeTypeOverride := computeTypeOverride
           environmentTypeOverride := environmentTypeOverride
           imageOverride := imageOverride
           imagePullCredentialsTypeOverride := imagePullCredentialsTypeOverride
           envPassthrough := envPassthrough
           updateInterval := updateInterval
           updateBackOff := updateBackOff
           disableSourceOverride := disableSourceOverride
           hideCloudWatchLogs := hideCloudWatchLogs
           disableGithubEnvVars := disableGithubEnvVars
           artifactsTypeOverride := artifactsTypeOverride
           stopOnSignals := stopOnSignals }

/-- A concrete environment snapshot used by witnesses. -/
def sampleEnv : List (String × String) :=
  [("GITHUB_SHA", "abc123"), ("PATH", "/usr/bin"), ("FOO", "1"), ("GITHUB_REF", "refs/heads/main")]

/-- A concrete input bag used by witnesses. -/
def sampleInputs : Inputs :=
  { projectName := some "proj"
    owner := "o"
    repo := "r"
    sourceVersion := some "abc123"
    sourceTypeOverride := none
    sourceLocationOverride := none
    buildspecOverride := none
    computeTypeOverride := none
    environmentTypeOverride := none
    imageOverride := none
    imagePullCredentialsTypeOverride := none
    envPassthrough := ["FOO"]
    updateInterval := 30000
    updateBackOff := 15000
    disableSourceOverride := false
    hideCloudWatchLogs := false
    disableGithubEnvVars := false
    artifactsTypeOverride := none
    stopOnSignals := ["SIGINT"] }

/-- An input bag whose project name is absent (the field a JavaScript
caller simply would not set). -/
def noNameInputs : Inputs :=
  { sampleInputs with projectName := none }



/-! ## Lemmas about `occurs` and `splitChars` -/

theorem isPrefixOf_append_self : ∀ (l t : List Char), l.isPrefixOf (l ++ t) = true
  | [], _ => by simp [List.isPrefixOf]
  | x :: xs, t => by simp [List.isPrefixOf, isPrefixOf_append_self xs t]

theorem isPrefixOf_nil_eq_false (c : Char) (cs : List Char) :
    (c :: cs).isPrefixOf [] = false := rfl

theorem exists_append_of_isPrefixOf :
    ∀ {l m : List Char}, l.isPrefixOf m = true → ∃ r, m = l ++ r := by
  intro l
  induction l with
  | nil => exact fun {m} _ => ⟨m, rfl⟩
  | cons x xs ih =>
    intro m h
    cases m with
    | nil => simp [List.isPrefixOf] at h
    | cons y ys =>
      simp only [List.isPrefixOf, Bool.and_eq_true, beq_iff_eq] at h
      obtain ⟨r, hr⟩ := ih h.2
      exact ⟨r, by simp [h.1, hr]⟩

theorem occurs_false_iff (c : Char) (cs l : List Char) :
    occurs (c :: cs) l = false ↔ ∀ i, (c :: cs).isPrefixOf (l.drop i) = false := by
  induction l with
  | nil => simp [occurs, isPrefixOf_nil_eq_false]
  | cons x xs ih =>
    simp only [occurs, Bool.or_eq_false_iff]
    constructor
    · rintro ⟨h0, hrest⟩ i
      cases i with
      | zero => simpa using h0
      | succ j => simpa using (ih.mp hrest) j
    · intro h
      exact ⟨by simpa using h 0, ih.mpr fun j => by simpa using h (j + 1)⟩

theorem occurs_drop (c : Char) (cs l : List Char) (k : Nat)
    (h : occurs (c :: cs) l = false) : occurs (c :: cs) (l.drop k) = false := by
  rw [occurs_false_iff] at h ⊢
  intro i
  rw [List.drop_drop]
  exact h (k + i)

theorem splitChars_ne_nil (c : Char) (cs : List Char) :
    ∀ (fuel : Nat) (l acc : List Char), splitChars c cs fuel l acc ≠ [] := by
  intro fuel
  induction fuel with
  | zero =>
    intro l acc
    cases l <;> simp [splitChars]
  | succ n ih =>
    intro l acc
    cases l with
    | nil => simp [splitChars]
    | cons x xs =>
      rw [splitChars]
      split
      · simp
      · exact ih xs (acc ++ [x])

theorem getLastD_irrel {α} (L : List α) (h : L ≠ []) (d₁ d₂ : α) :
    L.getLastD d₁ = L.getLastD d₂ := by
  cases L with
  | nil => exact absurd rfl h
  | cons y ys => rw [List.getLastD_cons, List.getLastD_cons]

theorem splitChars_fuel_irrel (c : Char) (cs : List Char) :
    ∀ (fuel₁ fuel₂ : Nat) (l acc : List Char), l.length ≤ fuel₁ → l.length ≤ fuel₂ →
      splitChars c cs fuel₁ l acc = splitChars c cs fuel₂ l acc := by
  intro fuel₁
  induction fuel₁ with
  | zero =>
    intro fuel₂ l acc h₁ _
    have : l = [] := List.eq_nil_of_length_eq_zero (Nat.le_zero.mp h₁)
    subst this
    cases fuel₂ <;> simp [splitChars]
  | succ n ih =>
    intro fuel₂ l acc h₁ h₂
    cases l with
    | nil => cases fuel₂ <;> simp [splitChars]
    | cons x xs =>
      cases fuel₂ with
      | zero => simp at h₂
      | succ m =>
        rw [splitChars, splitChars]
        split
        · rw [ih m (xs.drop cs.length) []
            (by simp at h₁ ⊢; omega) (by simp at h₂ ⊢; omega)]
        · rw [ih m xs (acc ++ [x]) (by simpa using h₁) (by simpa using h₂)]

theorem splitChars_of_not_occurs (c : Char) (cs : List Char) :
    ∀ (fuel : Nat) (l acc : List Char), l.length ≤ fuel →
      occurs (c :: cs) l = false → splitChars c cs fuel l acc = [acc ++ l] := by
  intro fuel
  induction fuel with
  | zero =>
    intro l acc h₁ _
    have : l = [] := List.eq_nil_of_length_eq_zero (Nat.le_zero.mp h₁)
    subst this
    simp [splitChars]
  | succ n ih =>
    intro l acc h₁ hocc
    cases l with
    | nil => simp [splitChars]
    | cons x xs =>
      rw [occurs, Bool.or_eq_false_iff] at hocc
      rw [splitChars, if_neg (by simp [hocc.1])]
      rw [ih xs (acc ++ [x]) (by simpa using h₁) hocc.2]
      simp

theorem splitChars_boundary (c : Char) (cs b : List Char) :
    ∀ (a : List Char) (fuel : Nat) (acc : List Char),
      (a ++ ((c :: cs) ++ b)).length ≤ fuel →
      (∀ i, i < a.length → (c :: cs).isPrefixOf ((a ++ ((c :: cs) ++ b)).drop i) = false) →
      splitChars c cs fuel (a ++ ((c :: cs) ++ b)) acc =
        (acc ++ a) :: splitChars c cs b.length b [] := by
  intro a
  induction a with
  | nil =>
    intro fuel acc hlen _
    cases fuel with
    | zero => simp at hlen
    | succ n =>
      have hpos : (c :: cs).isPrefixOf (c :: (cs ++ b)) = true := by
        rw [← List.cons_append]
        exact isPrefixOf_append_self (c :: cs) b
      rw [List.nil_append, List.cons_append, splitChars, if_pos hpos, List.drop_left]
      rw [splitChars_fuel_irrel c cs n b.length b []
        (by simp only [List.nil_append, List.length_cons, List.length_append] at hlen; omega)
        le_rfl]
      simp
  | cons y a' ih =>
    intro fuel acc hlen hocc
    cases fuel with
    | zero => simp at hlen
    | succ n =>
      have h0 : (c :: cs).isPrefixOf (y :: (a' ++ ((c :: cs) ++ b))) = false := by
        have h := hocc 0 (by simp)
        rw [List.drop_zero, List.cons_append] at h
        exact h
      rw [List.cons_append, splitChars, if_neg (by rw [h0]; exact Bool.false_ne_true)]
      rw [ih n (acc ++ [y])
        (by simp only [List.length_cons, List.length_append] at hlen ⊢; omega)
        (fun i hi => by
          have h := hocc (i + 1) (by simp only [List.length_cons]; omega)
          rwa [List.cons_append, List.drop_succ_cons] at h)]
      simp

theorem splitChars_getLastD_of_sep (c : Char) (cs t : List Char)
    (ht : occurs (c :: cs) (cs ++ t) = false) :
    ∀ (fuel : Nat) (p acc : List Char),
      (p ++ ((c :: cs) ++ t)).length ≤ fuel →
      (∀ i, i < p.length →
        (c :: cs).isPrefixOf ((p ++ ((c :: cs) ++ t)).drop i) = true →
          i + cs.length + 1 ≤ p.length) →
      (splitChars c cs fuel (p ++ ((c :: cs) ++ t)) acc).getLastD [] = t := by
  have hoc : occurs (c :: cs) t = false := by
    rw [occurs_false_iff] at ht ⊢
    intro i
    have h := ht (cs.length + i)
    rwa [List.drop_append] at h
  intro fuel
  induction fuel with
  | zero =>
    intro p acc hlen _
    exfalso
    simp at hlen
  | succ n ih =>
    intro p acc hlen h1
    cases p with
    | nil =>
      have hpos : (c :: cs).isPrefixOf (c :: (cs ++ t)) = true := by
        rw [← List.cons_append]
        exact isPrefixOf_append_self (c :: cs) t
      rw [List.nil_append, List.cons_append, splitChars, if_pos hpos,
        List.drop_left, List.getLastD_cons]
      rw [splitChars_of_not_occurs c cs n t []
        (by simp only [List.nil_append, List.length_cons, List.length_append] at hlen; omega)
        hoc]
      simp
    | cons y p' =>
      cases hpre : (c :: cs).isPrefixOf ((y :: p') ++ ((c :: cs) ++ t)) with
      | true =>
        have hle : cs.length + 1 ≤ (y :: p').length := by
          have h := h1 0 (by simp) (by rw [List.drop_zero]; exact hpre)
          omega
        obtain ⟨r, hr⟩ := exists_append_of_isPrefixOf hpre
        have hptake : (y :: p').take (cs.length + 1) = c :: cs := by
          have h₁ := congrArg (List.take (cs.length + 1)) hr
          rw [List.take_append_eq_append_take, List.take_append_eq_append_take,
            Nat.sub_eq_zero_of_le hle,
            Nat.sub_eq_zero_of_le (by simp only [List.length_cons]; omega)] at h₁
          simpa using h₁
        have hsplit : y :: p' = (c :: cs) ++ (y :: p').drop (cs.length + 1) := by
          conv_lhs => rw [← List.take_append_drop (cs.length + 1) (y :: p')]
          rw [hptake]
        have hlen2 : (y :: p').length = cs.length + 1 + ((y :: p').drop (cs.length + 1)).length := by
          rw [List.length_drop]
          omega
        have hshape : (y :: p') ++ ((c :: cs) ++ t) =
            c :: (cs ++ ((y :: p').drop (cs.length + 1) ++ ((c :: cs) ++ t))) := by
          conv_lhs => rw [hsplit]
          simp
        have hpos : (c :: cs).isPrefixOf
            (c :: (cs ++ ((y :: p').drop (cs.length + 1) ++ ((c :: cs) ++ t)))) = true := by
          rw [← List.cons_append]
          exact isPrefixOf_append_self (c :: cs) _
        rw [hshape, splitChars, if_pos hpos, List.drop_left, List.getLastD_cons]
        rw [getLastD_irrel _ (splitChars_ne_nil c cs n _ []) acc []]
        apply ih ((y :: p').drop (cs.length + 1)) []
        · simp only [List.length_cons, List.length_append, List.length_drop] at hlen ⊢
          omega
        · intro i hi hocc2
          have hdrop : ((y :: p').drop (cs.length + 1) ++ ((c :: cs) ++ t)).drop i =
              ((y :: p') ++ ((c :: cs) ++ t)).drop (cs.length + 1 + i) := by
            conv_rhs => rw [hsplit]
            rw [List.append_assoc,
              show cs.length + 1 + i = (c :: cs).length + i by simp]
            exact (List.drop_append i).symm
          have h := h1 (cs.length + 1 + i) (by omega) (by rw [← hdrop]; exact hocc2)
          omega
      | false =>
        have h0 : (c :: cs).isPrefixOf (y :: (p' ++ ((c :: cs) ++ t))) = false := by
          rw [← List.cons_append]
          exact hpre
        rw [List.cons_append, splitChars, if_neg (by rw [h0]; exact Bool.false_ne_true)]
        apply ih p' (acc ++ [y])
        · simp only [List.length_cons, List.length_append] at hlen ⊢
          omega
        · intro i hi hocc2
          have h := h1 (i + 1) (by simp only [List.length_cons]; omega)
            (by rwa [List.cons_append, List.drop_succ_cons])
          simp only [List.length_cons] at h
          omega

theorem splitChars_getLastD_suffix (c : Char) (cs : List Char) :
    ∀ (fuel : Nat) (l acc : List Char), l.length ≤ fuel →
      ∃ k, (splitChars c cs fuel l acc).getLastD [] = (acc ++ l).drop k := by
  intro fuel
  induction fuel with
  | zero =>
    intro l acc hlen
    have : l = [] := List.eq_nil_of_length_eq_zero (Nat.le_zero.mp hlen)
    subst this
    exact ⟨0, by simp [splitChars]⟩
  | succ n ih =>
    intro l acc hlen
    cases l with
    | nil => exact ⟨0, by simp [splitChars]⟩
    | cons x xs =>
      rw [splitChars]
      split
      · obtain ⟨k, hk⟩ := ih (xs.drop cs.length) []
          (by simp only [List.length_cons, List.length_drop] at hlen ⊢; omega)
        refine ⟨acc.length + (cs.length + k + 1), ?_⟩
        rw [List.getLastD_cons,
          getLastD_irrel _ (splitChars_ne_nil c cs n _ []) acc [], hk]
        rw [List.nil_append, List.drop_drop, List.drop_append,
          show cs.length + k + 1 = (cs.length + k) + 1 from rfl, List.drop_succ_cons,
          show cs.length + k = k + cs.length by omega]
      · obtain ⟨k, hk⟩ := ih xs (acc ++ [x])
          (by simp only [List.length_cons] at hlen; omega)
        refine ⟨k, by rw [hk]; simp⟩

theorem getLastD_map_mk : ∀ (L : List (List Char)), L ≠ [] →
    (L.map String.mk).getLastD "" = String.mk (L.getLastD []) := by
  intro L
  induction L with
  | nil => intro h; exact absurd rfl h
  | cons y ys ih =>
    intro _
    cases ys with
    | nil => rfl
    | cons z zs =>
      rw [List.map_cons, List.getLastD_cons, List.getLastD_cons]
      rw [getLastD_irrel _ (by simp) (String.mk y) "", getLastD_irrel (z :: zs) (by simp) y []]
      exact ih (by simp)

theorem jsSplit_group (a : String) :
    jsSplit a ":log-group:" =
      (splitChars ':' "log-group:".data a.data.length a.data []).map String.mk := rfl

theorem jsSplit_stream (a : String) :
    jsSplit a ":log-stream:" =
      (splitChars ':' "log-stream:".data a.data.length a.data []).map String.mk := rfl

/-- No occurrence of `":log-group:"` that starts inside `p` can spill over
the explicit separator unless `p` ends with the ten characters
`":log-group"` — the separator's only self-overlap is the single
character `':'`. -/
theorem group_no_straddle (p t : List Char)
    (hP : p.drop (p.length - 10) ≠ ":log-group".data) :
    ∀ i, i < p.length →
      (':' :: "log-group:".data).isPrefixOf
        ((p ++ ((':' :: "log-group:".data) ++ t)).drop i) = true →
        i + "log-group:".data.length + 1 ≤ p.length := by
  intro i hi hpre
  by_contra hcon
  rw [show "log-group:".data.length = 10 from by decide] at hcon
  push_neg at hcon
  obtain ⟨r, hr⟩ := exists_append_of_isPrefixOf hpre
  rw [List.drop_append_eq_append_drop, Nat.sub_eq_zero_of_le (Nat.le_of_lt hi),
    List.drop_zero] at hr
  have hdlen : (p.drop i).length = p.length - i := List.length_drop ..
  have e1 : ((p.drop i) ++ ((':' :: "log-group:".data) ++ t)).take 11 =
      (p.drop i) ++ (':' :: "log-group:".data).take (11 - (p.drop i).length) := by
    rw [List.take_append_eq_append_take,
      List.take_of_length_le (show (p.drop i).length ≤ 11 by omega),
      List.take_append_eq_append_take,
      show (11 - (p.drop i).length) - (':' :: "log-group:".data).length = 0 from by
        have hc : (':' :: "log-group:".data).length = 11 := by decide
        omega,
      List.take_zero, List.append_nil]
  have e2 : ((':' :: "log-group:".data) ++ r).take 11 = ':' :: "log-group:".data := by
    rw [List.take_append_eq_append_take,
      List.take_of_length_le (show (':' :: "log-group:".data).length ≤ 11 from by decide),
      show (11 : Nat) - (':' :: "log-group:".data).length = 0 from by decide,
      List.take_zero, List.append_nil]
  have key : (p.drop i) ++ (':' :: "log-group:".data).take (11 - (p.drop i).length) =
      ':' :: "log-group:".data := by
    rw [← e1, hr, e2]
  have hdrop := congrArg (List.drop ((p.drop i).length)) key
  rw [List.drop_left] at hdrop
  rcases Nat.lt_or_ge ((p.drop i).length) 10 with hlt | hge
  · have hdec : ∀ d, d < 10 → 1 ≤ d →
        ((':' :: "log-group:".data).take (11 - d) ≠ (':' :: "log-group:".data).drop d) := by
      decide
    exact absurd hdrop (hdec _ hlt (by omega))
  · have hdeq : (p.drop i).length = 10 := by omega
    have htake := congrArg (List.take ((p.drop i).length)) key
    rw [List.take_left, hdeq] at htake
    apply hP
    rw [show p.length - 10 = i by omega, htake]
    decide

/-- Under the no-stray-occurrence hypotheses, the two-stage split inside
`logName` recovers exactly the group and stream segments. -/
theorem logName_parts (p g s : String)
    (hP : p.data.drop (p.data.length - 10) ≠ ":log-group".data)
    (hL : occurs ":log-group:".data
      ("log-group:".data ++ (g.data ++ (":log-stream:".data ++ s.data))) = false)
    (hG : ∀ i, i < g.data.length →
      ":log-stream:".data.isPrefixOf
        ((g.data ++ (":log-stream:".data ++ s.data)).drop i) = false)
    (hS : occurs ":log-stream:".data s.data = false) :
    jsSplit ((jsSplit (p ++ ":log-group:" ++ g ++ ":log-stream:" ++ s) ":log-group:").getLastD "")
      ":log-stream:" = [g, s] := by
  have hdata : (p ++ ":log-group:" ++ g ++ ":log-stream:" ++ s).data =
      p.data ++ ((':' :: "log-group:".data) ++
        (g.data ++ ((':' :: "log-stream:".data) ++ s.data))) := by
    simp only [String.data_append, List.append_assoc]
  have hlast : (jsSplit (p ++ ":log-group:" ++ g ++ ":log-stream:" ++ s)
      ":log-group:").getLastD "" =
      String.mk (g.data ++ ((':' :: "log-stream:".data) ++ s.data)) := by
    rw [jsSplit_group, getLastD_map_mk _ (splitChars_ne_nil _ _ _ _ _)]
    congr 1
    rw [hdata]
    exact splitChars_getLastD_of_sep ':' "log-group:".data
      (g.data ++ ((':' :: "log-stream:".data) ++ s.data)) hL _ p.data [] le_rfl
      (group_no_straddle p.data _ hP)
  rw [hlast, jsSplit_stream,
    show (String.mk (g.data ++ ((':' :: "log-stream:".data) ++ s.data))).data =
      g.data ++ ((':' :: "log-stream:".data) ++ s.data) from rfl]
  rw [splitChars_boundary ':' "log-stream:".data s.data g.data _ [] le_rfl hG]
  rw [splitChars_of_not_occurs ':' "log-stream:".data s.data.length s.data [] le_rfl hS]
  simp only [List.nil_append, List.map_cons, List.map_nil]

theorem arn_ne_empty (p g s : String) :
    (p ++ ":log-group:" ++ g ++ ":log-stream:" ++ s).isEmpty = false := by
  rw [Bool.eq_false_iff]
  intro hc
  have hd := congrArg String.data ((String.isEmpty_iff _).mp hc)
  have hlen := congrArg List.length hd
  simp only [String.data_append, List.length_append] at hlen
  rw [show ":log-group:".data.length = 11 from by decide,
    show ":log-stream:".data.length = 12 from by decide] at hlen
  simp at hlen

/-- C7 (amended).  For every string assembled as
`p ++ ":log-group:" ++ G ++ ":log-stream:" ++ S` in which the split
delimiters occur only at their assembly positions — no `":log-group:"`
occurrence begins at or after the group delimiter's final colon (so in
particular `G` is not `"log-group"` and neither segment contains the
delimiters), no `":log-stream:"` occurrence begins inside `G` or inside
`S`, and `p` does not end with the ten characters `":log-group"` —
`logName` returns exactly `{G, S}` when neither segment is the literal
`"null"`, and both fields `undefined` when either segment is `"null"`;
an absent or empty input also yields both fields `undefined`. -/
theorem logName_extracts_segments (p g s : String)
    (hP : p.data.drop (p.data.length - 10) ≠ ":log-group".data)
    (hL : occurs ":log-group:".data
      ("log-group:".data ++ (g.data ++ (":log-stream:".data ++ s.data))) = false)
    (hG : ∀ i, i < g.data.length →
      ":log-stream:".data.isPrefixOf
        ((g.data ++ (":log-stream:".data ++ s.data)).drop i) = false)
    (hS : occurs ":log-stream:".data s.data = false) :
    (g ≠ "null" → s ≠ "null" →
      logName (some (p ++ ":log-group:" ++ g ++ ":log-stream:" ++ s)) =
        ⟨some g, some s⟩) ∧
    ((g = "null" ∨ s = "null") →
      logName (some (p ++ ":log-group:" ++ g ++ ":log-stream:" ++ s)) = ⟨none, none⟩) ∧
    logName none = ⟨none, none⟩ ∧ logName (some "") = ⟨none, none⟩ := by
  have hparts := logName_parts p g s hP hL hG hS
  have hne := arn_ne_empty p g s
  have hcompute : logName (some (p ++ ":log-group:" ++ g ++ ":log-stream:" ++ s)) =
      if g ≠ "null" ∧ (some s : Option String) ≠ some "null" then ⟨some g, some s⟩
      else ⟨none, none⟩ := by
    simp only [logName]
    rw [if_neg (by rw [hne]; exact Bool.false_ne_true), hparts]
    rfl
  refine ⟨fun hg hs2 => ?_, fun hnull => ?_, rfl, by decide⟩
  · rw [hcompute, if_pos ⟨hg, by simp [hs2]⟩]
  · rw [hcompute, if_neg ?_]
    rintro ⟨h1, h2⟩
    rcases hnull with h | h
    · exact h1 h
    · exact h2 (by rw [h])

/-- Witness for C7 (amended) at a concrete well-formed ARN. -/
theorem logName_extracts_segments_witness :
    logName (some ("arn:aws:logs:us-east-1:123456789012" ++ ":log-group:" ++
      "/aws/codebuild/proj" ++ ":log-stream:" ++ "abc-123")) =
      ⟨some "/aws/codebuild/proj", some "abc-123"⟩ :=
  (logName_extracts_segments "arn:aws:logs:us-east-1:123456789012" "/aws/codebuild/proj"
    "abc-123" (by decide) (by decide) (by decide) (by decide)).1 (by decide) (by decide)

/-- C7 counterexample.  The input is of the form
`...:log-group:<G>:log-stream:<S>` with `G = "g"` and
`S = "a:log-stream:b"`, neither equal to `"null"`, yet `logName` does not
return those segments: it returns stream `"a"` (the split cuts `S` at its
inner `":log-stream:"`). -/
theorem logName_claim_counterexample :
    logName (some ("x" ++ ":log-group:" ++ "g" ++ ":log-stream:" ++ "a:log-stream:b")) ≠
      ⟨some "g", some "a:log-stream:b"⟩ ∧
    logName (some ("x" ++ ":log-group:" ++ "g" ++ ":log-stream:" ++ "a:log-stream:b")) =
      ⟨some "g", some "a"⟩ := by decide

/-- C10 (amended): `logName` is total — on any string lacking the
`":log-stream:"` delimiter it still returns a record, with
`logStreamName` undefined and `logGroupName` the text after the last
`":log-group:"` (the whole input when that delimiter is absent too),
except that an empty input or an extracted text equal to the literal
`"null"` leaves `logGroupName` undefined; it never fails. -/
theorem logName_total_no_stream (a : String)
    (hS : occurs ":log-stream:".data a.data = false) :
    (logName (some a)).logStreamName = none ∧
    (logName (some a)).logGroupName =
      (if a.isEmpty = true ∨ (jsSplit a ":log-group:").getLastD "" = "null" then none
       else some ((jsSplit a ":log-group:").getLastD "")) ∧
    (occurs ":log-group:".data a.data = false → (jsSplit a ":log-group:").getLastD "" = a) := by
  have hwhole : occurs ":log-group:".data a.data = false →
      (jsSplit a ":log-group:").getLastD "" = a := by
    intro hg
    rw [jsSplit_group, splitChars_of_not_occurs ':' "log-group:".data a.data.length a.data []
      le_rfl hg]
    rfl
  by_cases hempty : a.isEmpty = true
  · refine ⟨?_, ?_, hwhole⟩
    · simp only [logName]
      rw [if_pos hempty]
    · simp only [logName]
      rw [if_pos hempty, if_pos (Or.inl hempty)]
  · have hempty' : a.isEmpty = false := Bool.eq_false_iff.mpr hempty
    have hafter : ((jsSplit a ":log-group:").getLastD "").data =
        (splitChars ':' "log-group:".data a.data.length a.data []).getLastD [] := by
      rw [jsSplit_group, getLastD_map_mk _ (splitChars_ne_nil _ _ _ _ _)]
    obtain ⟨k, hk⟩ := splitChars_getLastD_suffix ':' "log-group:".data a.data.length a.data []
      le_rfl
    have hocc2 : occurs ":log-stream:".data ((jsSplit a ":log-group:").getLastD "").data =
        false := by
      rw [hafter, hk, List.nil_append]
      exact occurs_drop ':' "log-stream:".data a.data k hS
    have hparts : jsSplit ((jsSplit a ":log-group:").getLastD "") ":log-stream:" =
        [(jsSplit a ":log-group:").getLastD ""] := by
      rw [jsSplit_stream, splitChars_of_not_occurs ':' "log-stream:".data _ _ [] le_rfl hocc2]
      simp only [List.nil_append, List.map_cons, List.map_nil]
    have hcompute : logName (some a) =
        if (jsSplit a ":log-group:").getLastD "" ≠ "null" then
          ⟨some ((jsSplit a ":log-group:").getLastD ""), none⟩
        else ⟨none, none⟩ := by
      simp only [logName]
      rw [if_neg (by rw [hempty']; exact Bool.false_ne_true), hparts]
      simp only [List.headD_cons]
      rw [show ([(jsSplit a ":log-group:").getLastD ""])[1]? = none from rfl]
      by_cases hnull : (jsSplit a ":log-group:").getLastD "" = "null"
      · rw [if_neg (by rintro ⟨h1, _⟩; exact h1 hnull), if_neg (fun hne => hne hnull)]
      · rw [if_pos ⟨hnull, by simp⟩, if_pos hnull]
    refine ⟨?_, ?_, hwhole⟩
    · rw [hcompute]
      by_cases hnull : (jsSplit a ":log-group:").getLastD "" = "null"
      · rw [if_neg (fun hne => hne hnull)]
      · rw [if_pos hnull]
    · rw [hcompute]
      by_cases hnull : (jsSplit a ":log-group:").getLastD "" = "null"
      · rw [if_neg (fun hne => hne hnull), if_pos (Or.inr hnull)]
      · rw [if_pos hnull,
          if_neg (by rintro (h | h); exact hempty h; exact hnull h)]

/-- Witness for C10 (amended) at a concrete delimiter-free input. -/
theorem logName_total_no_stream_witness :
    (logName (some "plain-text")).logStreamName = none ∧
    (logName (some "plain-text")).logGroupName = some "plain-text" := by
  have h := logName_total_no_stream "plain-text" (by decide)
  refine ⟨h.1, ?_⟩
  rw [h.2.1]
  decide

/-- C10 counterexample.  For the delimiter-free input `"null"`, the claim
predicts `logGroupName = some "null"` (the whole input), but the code's
`"null"` guard clears both fields. -/
theorem logName_null_counterexample :
    logName (some "null") = ⟨none, none⟩ ∧
    logName (some "null") ≠ ⟨some "null", none⟩ := by decide

/-! ## Lemmas about the poll loop -/

theorem pollStep_finished_endTime (st : IterState) (f : FetchOutcome) (s : BuildStatus)
    (em : List String) (h : pollStep st f = .finished s em) : s.endTime.isSome = true := by
  cases f with
  | failure msg j =>
    simp only [pollStep] at h
    split at h <;> simp at h
  | success cur batch =>
    simp only [pollStep] at h
    split at h <;> split at h
    case isTrue.isTrue hc =>
      injection h with h1 h2
      subst h1
      exact hc.1
    case isTrue.isFalse => simp at h
    case isFalse.isTrue hc =>
      injection h with h1 h2
      subst h1
      exact hc.1
    case isFalse.isFalse => simp at h

theorem pollLoop_finished_endTime : ∀ (script : List FetchOutcome) (st : IterState)
    (s : BuildStatus), (pollLoop st script).result = .finished s → s.endTime.isSome = true := by
  intro script
  induction script with
  | nil =>
    intro st s h
    have h' : PollResult.outOfScript = PollResult.finished s := h
    exact PollResult.noConfusion h'
  | cons f rest ih =>
    intro st s h
    rw [pollLoop] at h
    cases hstep : pollStep st f with
    | finished cur em =>
      rw [hstep] at h
      have h' : PollResult.finished cur = PollResult.finished s := h
      injection h' with hcs
      subst hcs
      exact pollStep_finished_endTime st f cur em hstep
    | fatal msg =>
      rw [hstep] at h
      have h' : PollResult.fatal msg = PollResult.finished s := h
      exact PollResult.noConfusion h'
    | throttled st' sl =>
      rw [hstep] at h
      exact ih st' s h
    | again st' sl em =>
      rw [hstep] at h
      exact ih st' s h

/-- C2: every terminating execution of `waitForBuildEndTime` returns a
`BuildStatus` whose `endTime` is set; the loop only ever yields such a
terminal status, a thrown error, or keeps polling — never a status
without `endTime`. -/
theorem waitForBuildEndTime_returns_terminal (b : BuildStatus) (cfg : PollConfig)
    (script : List FetchOutcome) (s : BuildStatus)
    (h : (waitForBuildEndTime b cfg script).result = .finished s) :
    s.endTime.isSome = true :=
  pollLoop_finished_endTime script _ s h

/-- Witness for C2: a concrete run that terminates, whose returned status
has `endTime` set. -/
theorem waitForBuildEndTime_returns_terminal_witness :
    (((⟨"b", some 7, some "SUCCEEDED", some "g"⟩ : BuildStatus)).endTime).isSome = true :=
  waitForBuildEndTime_returns_terminal ⟨"b", none, none, some "g"⟩ ⟨30000, 15000, false⟩
    [.success ⟨"b", some 7, some "SUCCEEDED", some "g"⟩ ⟨[], none⟩,
     .success ⟨"b", some 7, some "SUCCEEDED", some "g"⟩ ⟨[], none⟩]
    ⟨"b", some 7, some "SUCCEEDED", some "g"⟩ (by decide)

/-- C4: when a fetch fails with a message not containing
`"Rate exceeded"`, the loop rethrows exactly that error, emits nothing
further, performs no further fetches (the rest of the script is left
unconsumed), and synthesizes no partial result. -/
theorem pollLoop_fatal_propagates (st : IterState) (msg : String) (j : Nat)
    (rest : List FetchOutcome)
    (h : occurs rateExceeded.data msg.data = false) :
    pollLoop st (.failure msg j :: rest) = ⟨.fatal msg, [], [], rest⟩ := by
  rw [pollLoop]
  simp only [pollStep, h, Bool.false_eq_true, if_false]

/-- Witness for C4 at a concrete non-rate-limit error. -/
theorem pollLoop_fatal_propagates_witness :
    pollLoop ⟨⟨"b", none, none, none⟩, ⟨30000, 15000, false⟩, 0, 0, 0, none⟩
      [.failure "AccessDeniedException" 0,
       .success ⟨"b", some 7, none, none⟩ ⟨[], none⟩] =
      ⟨.fatal "AccessDeniedException", [], [],
       [.success ⟨"b", some 7, none, none⟩ ⟨[], none⟩]⟩ :=
  pollLoop_fatal_propagates _ "AccessDeniedException" 0 _ (by decide)

/-- C3: a fetch failure whose message contains `"Rate exceeded"` sleeps
`updateInterval + jitter` (the jitter drawn uniformly below
`updateBackOff * 2 ^ throttleCount`), increments `throttleCount`, and
retries the same iteration with the same build, log cursor and
`seqEmptyLogs` / `totalEvents` counters, carrying the enlarged wait
forward as the new base `updateInterval`. -/
theorem pollLoop_throttle_retry (st : IterState) (msg : String) (j : Nat)
    (rest : List FetchOutcome)
    (hrate : occurs rateExceeded.data msg.data = true)
    (_hj : j < max (st.cfg.updateBackOff * 2 ^ st.throttleCount) 1) :
    pollLoop st (.failure msg j :: rest) =
      ⟨(pollLoop (throttleState st j) rest).result,
       (pollLoop (throttleState st j) rest).output,
       (st.cfg.updateInterval + j) :: (pollLoop (throttleState st j) rest).sleeps,
       (pollLoop (throttleState st j) rest).remaining⟩ ∧
    (throttleState st j).build = st.build ∧
    (throttleState st j).nextToken = st.nextToken ∧
    (throttleState st j).seqEmptyLogs = st.seqEmptyLogs ∧
    (throttleState st j).totalEvents = st.totalEvents ∧
    (throttleState st j).throttleCount = st.throttleCount + 1 ∧
    (throttleState st j).cfg.updateInterval = st.cfg.updateInterval + j ∧
    (throttleState st j).cfg.updateBackOff = st.cfg.updateBackOff := by
  refine ⟨?_, rfl, rfl, rfl, rfl, rfl, rfl, rfl⟩
  rw [pollLoop]
  simp only [pollStep, hrate, if_true]
  rfl

/-- Witness for C3 at a concrete throttled fetch. -/
theorem pollLoop_throttle_retry_witness :
    pollLoop ⟨⟨"b", none, none, none⟩, ⟨30000, 15000, false⟩, 0, 0, 0, none⟩
      [.failure "Rate exceeded" 5] = ⟨.outOfScript, [], [30005], []⟩ := by
  rw [(pollLoop_throttle_retry ⟨⟨"b", none, none, none⟩, ⟨30000, 15000, false⟩, 0, 0, 0, none⟩
    "Rate exceeded" 5 [] (by decide) (by decide)).1]
  decide

/-- C8: a successful, non-terminating iteration sleeps
`updateInterval / 2` exactly when the current status has an `endTime` and
no throttling has ever occurred, and the full current `updateInterval`
otherwise. -/
theorem pollStep_sleep_choice (st : IterState) (cur : BuildStatus) (batch : LogBatch)
    (st' : IterState) (sleep : Nat) (em : List String)
    (h : pollStep st (.success cur batch) = .again st' sleep em) :
    sleep = if cur.endTime.isSome = true ∧ st.throttleCount = 0 then
      st.cfg.updateInterval / 2 else st.cfg.updateInterval := by
  simp only [pollStep] at h
  split at h <;> split at h
  case isTrue.isTrue => simp at h
  case isTrue.isFalse =>
    injection h with h1 h2 h3
    exact h2.symm
  case isFalse.isTrue => simp at h
  case isFalse.isFalse =>
    injection h with h1 h2 h3
    exact h2.symm

/-- Witness for C8 at a concrete iteration: build ended, never throttled,
so the sleep is half the interval. -/
theorem pollStep_sleep_choice_witness :
    (15000 : Nat) = if (some 3 : Option Nat).isSome = true ∧ (0 : Nat) = 0 then
      30000 / 2 else (30000 : Nat) :=
  pollStep_sleep_choice ⟨⟨"b", none, none, none⟩, ⟨30000, 15000, false⟩, 0, 0, 0, none⟩
    ⟨"b", some 3, some "SUCCEEDED", none⟩ ⟨[], none⟩
    ⟨⟨"b", some 3, some "SUCCEEDED", none⟩, ⟨30000, 15000, false⟩, 1, 0, 0, none⟩
    15000 [] (by decide)

theorem pollStep_success_cases (st : IterState) (cur : BuildStatus) (batch : LogBatch) :
    (∃ em, pollStep st (.success cur batch) = .finished cur em ∧
      em = (effectiveEvents st batch).map jsTrimEnd) ∨
    (∃ st' sl em, pollStep st (.success cur batch) = .again st' sl em ∧
      em = (effectiveEvents st batch).map jsTrimEnd) := by
  simp only [pollStep]
  split <;> split
  case isTrue.isTrue => exact Or.inl ⟨_, rfl, rfl⟩
  case isTrue.isFalse => exact Or.inr ⟨_, _, _, rfl, rfl⟩
  case isFalse.isTrue => exact Or.inl ⟨_, rfl, rfl⟩
  case isFalse.isFalse => exact Or.inr ⟨_, _, _, rfl, rfl⟩

/-- C5 (amended): a rate-limited retry rebuilds the config as
`{ updateInterval, updateBackOff }`, losing the `hideCloudWatchLogs`
field (falsy thereafter).  Before the throttle the hidden configuration
suppresses the log fetch; after it, provided the build record carries a
usable (truthy) log group name, every iteration issues the log fetch and
emits the fetched events even though log output was configured hidden. -/
theorem throttle_drops_hide (st : IterState) (msg : String) (j : Nat)
    (hhide : st.cfg.hideCloudWatchLogs = true)
    (hrate : occurs rateExceeded.data msg.data = true) :
    pollStep st (.failure msg j) = .throttled (throttleState st j) (st.cfg.updateInterval + j) ∧
    (throttleState st j).cfg.hideCloudWatchLogs = false ∧
    shouldFetchLogs st = false ∧
    (jsTruthy (logName st.build.logsArn).logGroupName = true →
      shouldFetchLogs (throttleState st j) = true ∧
      ∀ (cur : BuildStatus) (batch : LogBatch) (rest : List FetchOutcome),
        (pollLoop (throttleState st j) (.success cur batch :: rest)).output.take
          batch.events.length = batch.events.map jsTrimEnd) := by
  refine ⟨?_, rfl, ?_, fun htruthy => ⟨?_, ?_⟩⟩
  · simp only [pollStep]
    rw [if_pos hrate]
    rfl
  · simp [shouldFetchLogs, hhide]
  · simp [shouldFetchLogs, throttleState, htruthy]
  · intro cur batch rest
    have hfetch : shouldFetchLogs (throttleState st j) = true := by
      simp [shouldFetchLogs, throttleState, htruthy]
    have hev : effectiveEvents (throttleState st j) batch = batch.events := by
      simp [effectiveEvents, hfetch]
    rw [pollLoop]
    rcases pollStep_success_cases (throttleState st j) cur batch with
      ⟨em, hstep, hem⟩ | ⟨st2, sl, em, hstep, hem⟩
    · rw [hev] at hem
      rw [hstep]
      show em.take batch.events.length = batch.events.map jsTrimEnd
      rw [hem, show batch.events.length = (batch.events.map jsTrimEnd).length from
        (List.length_map _ _).symm, List.take_length]
    · rw [hev] at hem
      rw [hstep]
      show (em ++ (pollLoop st2 rest).output).take batch.events.length =
        batch.events.map jsTrimEnd
      rw [hem, show batch.events.length = (batch.events.map jsTrimEnd).length from
        (List.length_map _ _).symm, List.take_left]

/-- Witness for C5 at a concrete hidden-logs state: after the throttled
retry the log fetch is issued although it was suppressed before. -/
theorem throttle_drops_hide_witness :
    shouldFetchLogs (throttleState
      ⟨⟨"b", none, none, some "g"⟩, ⟨30000, 15000, true⟩, 0, 0, 0, none⟩ 5) = true ∧
    shouldFetchLogs
      ⟨⟨"b", none, none, some "g"⟩, ⟨30000, 15000, true⟩, 0, 0, 0, none⟩ = false := by
  have h := throttle_drops_hide
    ⟨⟨"b", none, none, some "g"⟩, ⟨30000, 15000, true⟩, 0, 0, 0, none⟩
    "Rate exceeded" 5 (by decide) (by decide)
  exact ⟨(h.2.2.2 (by decide)).1, h.2.2.1⟩

theorem pollLoop_cons_again (st : IterState) (f : FetchOutcome) (rest : List FetchOutcome)
    (st' : IterState) (sl : Nat) (em : List String)
    (h : pollStep st f = .again st' sl em) :
    pollLoop st (f :: rest) =
      ⟨(pollLoop st' rest).result, em ++ (pollLoop st' rest).output,
       sl :: (pollLoop st' rest).sleeps, (pollLoop st' rest).remaining⟩ := by
  rw [pollLoop, h]

theorem pollLoop_cons_finished (st : IterState) (f : FetchOutcome)
    (rest : List FetchOutcome) (s : BuildStatus) (em : List String)
    (h : pollStep st f = .finished s em) :
    pollLoop st (f :: rest) = ⟨.finished s, em, [], rest⟩ := by
  rw [pollLoop, h]

theorem pollStep_success_eq (st : IterState) (cur : BuildStatus) (batch : LogBatch) :
    pollStep st (.success cur batch) =
      if cur.endTime.isSome = true ∧ 2 ≤ seqUpdate st cur batch then
        .finished cur ((effectiveEvents st batch).map jsTrimEnd)
      else
        .again ⟨cur, st.cfg, seqUpdate st cur batch,
          st.totalEvents + (effectiveEvents st batch).length, st.throttleCount,
          effectiveToken st batch⟩
          (if cur.endTime.isSome = true ∧ st.throttleCount = 0 then
            st.cfg.updateInterval / 2 else st.cfg.updateInterval)
          ((effectiveEvents st batch).map jsTrimEnd) := rfl

theorem pollStep_running (st : IterState) (cur : BuildStatus) (batch : LogBatch)
    (hend : cur.endTime = none) :
    ∃ sl tok seq,
      pollStep st (.success cur batch) =
        .again ⟨cur, st.cfg, seq, st.totalEvents + (effectiveEvents st batch).length,
          st.throttleCount, tok⟩ sl ((effectiveEvents st batch).map jsTrimEnd) := by
  rw [pollStep_success_eq, if_neg (by rintro ⟨hc, _⟩; rw [hend] at hc; simp at hc)]
  exact ⟨_, _, _, rfl⟩

theorem pollStep_nonempty_batch (st : IterState) (cur : BuildStatus) (batch : LogBatch)
    (hfetch : shouldFetchLogs st = true) (hne : batch.events ≠ []) :
    ∃ sl, pollStep st (.success cur batch) =
      .again ⟨cur, st.cfg, 0, st.totalEvents + batch.events.length, st.throttleCount,
        effectiveToken st batch⟩ sl (batch.events.map jsTrimEnd) := by
  have hev : effectiveEvents st batch = batch.events := by simp [effectiveEvents, hfetch]
  have hseq : seqUpdate st cur batch = 0 := by
    rw [seqUpdate, if_neg (fun hc => hne (List.eq_nil_of_length_eq_zero (hev ▸ hc.1)))]
  rw [pollStep_success_eq, hseq, if_neg (by rintro ⟨_, hc⟩; omega), hev]
  exact ⟨_, rfl⟩

theorem pollStep_empty_batch_again (st : IterState) (cur : BuildStatus) (t : Option String)
    (htot : 0 < st.totalEvents) (hlt : st.seqEmptyLogs + 1 < 2) :
    ∃ sl, pollStep st (.success cur ⟨[], t⟩) =
      .again ⟨cur, st.cfg, st.seqEmptyLogs + 1, st.totalEvents, st.throttleCount,
        effectiveToken st ⟨[], t⟩⟩ sl [] := by
  have hev : effectiveEvents st ⟨[], t⟩ = [] := by simp [effectiveEvents]
  have hseq : seqUpdate st cur ⟨[], t⟩ = st.seqEmptyLogs + 1 := by
    rw [seqUpdate, if_pos ⟨by rw [hev]; rfl, Or.inl htot⟩]
  rw [pollStep_success_eq, hseq, if_neg (by rintro ⟨_, hc⟩; omega), hev]
  exact ⟨_, rfl⟩

theorem pollStep_empty_batch_finished (st : IterState) (cur : BuildStatus)
    (t : Option String) (hcond : 0 < st.totalEvents ∨ cur.endTime.isSome = true)
    (hend : cur.endTime.isSome = true) (hge : 2 ≤ st.seqEmptyLogs + 1) :
    pollStep st (.success cur ⟨[], t⟩) = .finished cur [] := by
  have hev : effectiveEvents st ⟨[], t⟩ = [] := by simp [effectiveEvents]
  have hseq : seqUpdate st cur ⟨[], t⟩ = st.seqEmptyLogs + 1 := by
    rw [seqUpdate, if_pos ⟨by rw [hev]; rfl, hcond⟩]
  rw [pollStep_success_eq, hseq, if_pos ⟨hend, hge⟩, hev]
  rfl

theorem pollLoop_pre_run :
    ∀ (pre : List FetchOutcome) (st : IterState) (tail : List FetchOutcome),
      st.cfg.hideCloudWatchLogs = false →
      jsTruthy (logName st.build.logsArn).logGroupName = true →
      (∀ e ∈ pre, ∃ c bt, e = FetchOutcome.success c bt ∧ c.endTime = none ∧
        jsTruthy (logName c.logsArn).logGroupName = true) →
      ∃ st' : IterState,
        st'.cfg = st.cfg ∧
        jsTruthy (logName st'.build.logsArn).logGroupName = true ∧
        (pollLoop st (pre ++ tail)).result = (pollLoop st' tail).result ∧
        (pollLoop st (pre ++ tail)).output = scriptMsgs pre ++ (pollLoop st' tail).output ∧
        (pollLoop st (pre ++ tail)).remaining = (pollLoop st' tail).remaining := by
  intro pre
  induction pre with
  | nil =>
    intro st tail _ htruthy _
    exact ⟨st, rfl, htruthy, rfl, by simp [scriptMsgs], rfl⟩
  | cons e pre' ih =>
    intro st tail hhide htruthy hshape
    obtain ⟨c, bt, he, hend, htc⟩ := hshape e (List.mem_cons_self ..)
    subst he
    have hfetch : shouldFetchLogs st = true := by
      simp [shouldFetchLogs, hhide, htruthy]
    have hev : effectiveEvents st bt = bt.events := by simp [effectiveEvents, hfetch]
    obtain ⟨sl, tok, seq, hstep⟩ := pollStep_running st c bt hend
    have hloop := pollLoop_cons_again st (.success c bt) (pre' ++ tail) _ sl _ hstep
    obtain ⟨st', h1, h2, h3, h4, h5⟩ :=
      ih ⟨c, st.cfg, seq, st.totalEvents + (effectiveEvents st bt).length,
        st.throttleCount, tok⟩ tail hhide htc
        (fun e2 he2 => hshape e2 (List.mem_cons_of_mem _ he2))
    refine ⟨st', h1, h2, ?_, ?_, ?_⟩
    · rw [List.cons_append, hloop]
      exact h3
    · rw [List.cons_append, hloop]
      show (effectiveEvents st bt).map jsTrimEnd ++ _ = _
      rw [h4, hev]
      simp [scriptMsgs, List.append_assoc]
    · rw [List.cons_append, hloop]
      exact h5

theorem pollLoop_tail_run (st : IterState) (sk s1 s2 : BuildStatus) (bk : LogBatch)
    (t1 t2 : Option String)
    (hhide : st.cfg.hideCloudWatchLogs = false)
    (htruthy : jsTruthy (logName st.build.logsArn).logGroupName = true)
    (_hk : sk.endTime.isSome = true) (_h1 : s1.endTime.isSome = true)
    (h2 : s2.endTime.isSome = true) (hne : bk.events ≠ []) :
    ∃ sl1 sl2,
      pollLoop st [.success sk bk, .success s1 ⟨[], t1⟩, .success s2 ⟨[], t2⟩] =
        ⟨.finished s2, bk.events.map jsTrimEnd, [sl1, sl2], []⟩ := by
  have hfetch : shouldFetchLogs st = true := by
    simp [shouldFetchLogs, hhide, htruthy]
  have hpos : 0 < bk.events.length := List.length_pos.mpr hne
  obtain ⟨sl1, hstep1⟩ := pollStep_nonempty_batch st sk bk hfetch hne
  obtain ⟨sl2, hstep2⟩ := pollStep_empty_batch_again
    ⟨sk, st.cfg, 0, st.totalEvents + bk.events.length, st.throttleCount,
      effectiveToken st bk⟩ s1 t1
    (by show 0 < st.totalEvents + bk.events.length; omega)
    (by show 0 + 1 < 2; omega)
  have hstep3 := pollStep_empty_batch_finished
    ⟨s1,
      (⟨sk, st.cfg, 0, st.totalEvents + bk.events.length, st.throttleCount,
        effectiveToken st bk⟩ : IterState).cfg,
      0 + 1,
      (⟨sk, st.cfg, 0, st.totalEvents + bk.events.length, st.throttleCount,
        effectiveToken st bk⟩ : IterState).totalEvents,
      (⟨sk, st.cfg, 0, st.totalEvents + bk.events.length, st.throttleCount,
        effectiveToken st bk⟩ : IterState).throttleCount,
      effectiveToken
        ⟨sk, st.cfg, 0, st.totalEvents + bk.events.length, st.throttleCount,
          effectiveToken st bk⟩ ⟨[], t1⟩⟩ s2 t2
    (Or.inl (by show 0 < st.totalEvents + bk.events.length; omega))
    h2 (by show 2 ≤ (0 + 1) + 1; omega)
  refine ⟨sl1, sl2, ?_⟩
  rw [pollLoop_cons_again _ _ _ _ _ _ hstep1,
    pollLoop_cons_again _ _ _ _ _ _ hstep2,
    pollLoop_cons_finished _ _ _ _ _ hstep3]
  simp

/-- C1 (amended).  Quiescence: feed the loop a script whose first entries
are successful running snapshots (no end time, usable log group), then at
batch `k` a snapshot with an end time and a non-empty log batch, then two
empty batches with end time still set.  The loop terminates exactly after
the second consecutive empty batch counted from `k` onward (it consumes
the whole script and nothing is left), returning the final status and
having emitted every message of batches `0..k` to the output sink in
arrival order.  Additionally the accounting law: an empty (effective)
batch increments `seqEmptyLogs` only when events have ever been seen or
the current status has an end time, and any non-empty batch resets it to
zero.  (The unamended claim fails when pending consecutive empties from
before `k` let the loop stop at `k` itself; the amendment requires batch
`k` to be non-empty.) -/
theorem waitForBuildEndTime_quiescence :
    (∀ (pre : List FetchOutcome) (b : BuildStatus) (cfg : PollConfig)
      (sk s1 s2 : BuildStatus) (bk : LogBatch) (t1 t2 : Option String),
      cfg.hideCloudWatchLogs = false →
      jsTruthy (logName b.logsArn).logGroupName = true →
      (∀ e ∈ pre, ∃ c bt, e = FetchOutcome.success c bt ∧ c.endTime = none ∧
        jsTruthy (logName c.logsArn).logGroupName = true) →
      sk.endTime.isSome = true → s1.endTime.isSome = true → s2.endTime.isSome = true →
      bk.events ≠ [] →
      (waitForBuildEndTime b cfg
        (pre ++ [.success sk bk, .success s1 ⟨[], t1⟩, .success s2 ⟨[], t2⟩])).result =
          .finished s2 ∧
      (waitForBuildEndTime b cfg
        (pre ++ [.success sk bk, .success s1 ⟨[], t1⟩, .success s2 ⟨[], t2⟩])).output =
          scriptMsgs pre ++ bk.events.map jsTrimEnd ∧
      (waitForBuildEndTime b cfg
        (pre ++ [.success sk bk, .success s1 ⟨[], t1⟩, .success s2 ⟨[], t2⟩])).remaining =
          []) ∧
    (∀ (st : IterState) (cur : BuildStatus) (batch : LogBatch) (st' : IterState)
      (sl : Nat) (em : List String),
      pollStep st (.success cur batch) = .again st' sl em →
      st'.seqEmptyLogs = if (effectiveEvents st batch).length = 0 ∧
        (0 < st.totalEvents ∨ cur.endTime.isSome = true) then st.seqEmptyLogs + 1 else 0) := by
  constructor
  · intro pre b cfg sk s1 s2 bk t1 t2 hhide htruthy hpre hk h1 h2 hne
    obtain ⟨st', hcfg, htr, hres, hout, hrem⟩ :=
      pollLoop_pre_run pre ⟨b, cfg, 0, 0, 0, none⟩
        [.success sk bk, .success s1 ⟨[], t1⟩, .success s2 ⟨[], t2⟩] hhide htruthy hpre
    obtain ⟨sl1, sl2, htail⟩ :=
      pollLoop_tail_run st' sk s1 s2 bk t1 t2 (by rw [hcfg]; exact hhide) htr hk h1 h2 hne
    refine ⟨?_, ?_, ?_⟩
    · show (pollLoop ⟨b, cfg, 0, 0, 0, none⟩ _).result = _
      rw [hres, htail]
    · show (pollLoop ⟨b, cfg, 0, 0, 0, none⟩ _).output = _
      rw [hout, htail]
    · show (pollLoop ⟨b, cfg, 0, 0, 0, none⟩ _).remaining = _
      rw [hrem, htail]
  · intro st cur batch st' sl em h
    rw [pollStep_success_eq] at h
    split at h
    · exact absurd h (by simp)
    · injection h with hst hsl hem
      rw [← hst]
      show seqUpdate st cur batch = _
      rw [seqUpdate]

/-- Witness for C1 (amended): one running batch with a message, then the
end-time batch with a message, then two empty batches; the loop consumes
exactly the whole script and emits both messages in order. -/
theorem waitForBuildEndTime_quiescence_witness :
    (waitForBuildEndTime ⟨"b", none, none, some "g"⟩ ⟨30000, 15000, false⟩
      [.success ⟨"b", none, none, some "g"⟩ ⟨["hello"], some "t0"⟩,
       .success ⟨"b", some 9, some "SUCCEEDED", some "g"⟩ ⟨["done"], some "t1"⟩,
       .success ⟨"b", some 9, some "SUCCEEDED", some "g"⟩ ⟨[], some "t2"⟩,
       .success ⟨"b", some 9, some "SUCCEEDED", some "g"⟩ ⟨[], some "t3"⟩]).result =
      .finished ⟨"b", some 9, some "SUCCEEDED", some "g"⟩ ∧
    (waitForBuildEndTime ⟨"b", none, none, some "g"⟩ ⟨30000, 15000, false⟩
      [.success ⟨"b", none, none, some "g"⟩ ⟨["hello"], some "t0"⟩,
       .success ⟨"b", some 9, some "SUCCEEDED", some "g"⟩ ⟨["done"], some "t1"⟩,
       .success ⟨"b", some 9, some "SUCCEEDED", some "g"⟩ ⟨[], some "t2"⟩,
       .success ⟨"b", some 9, some "SUCCEEDED", some "g"⟩ ⟨[], some "t3"⟩]).output =
      ["hello", "done"] := by
  have h := waitForBuildEndTime_quiescence.1
    [.success ⟨"b", none, none, some "g"⟩ ⟨["hello"], some "t0"⟩]
    ⟨"b", none, none, some "g"⟩ ⟨30000, 15000, false⟩
    ⟨"b", some 9, some "SUCCEEDED", some "g"⟩ ⟨"b", some 9, some "SUCCEEDED", some "g"⟩
    ⟨"b", some 9, some "SUCCEEDED", some "g"⟩ ⟨["done"], some "t1"⟩ (some "t2") (some "t3")
    (by decide) (by decide)
    (by
      intro e he
      rw [List.mem_singleton] at he
      subst he
      exact ⟨_, _, rfl, rfl, by decide⟩)
    (by decide) (by decide) (by decide) (by decide)
  exact ⟨h.1, h.2.1.trans (by decide)⟩

/-- C1 counterexample.  The build's end time becomes set at batch `k = 2`
and batches `3` and `4` are empty, as the claim requires; but batch `1`
was already an empty batch after data, so the pending count makes the
loop stop at batch `2` itself — the first, not the second, empty batch
counted from `k` onward — leaving two script entries unconsumed where
the claim predicts one. -/
theorem waitForBuildEndTime_early_stop_counterexample :
    (waitForBuildEndTime ⟨"b", none, none, some "g"⟩ ⟨30000, 15000, false⟩
      [.success ⟨"b", none, none, some "g"⟩ ⟨["a"], some "t1"⟩,
       .success ⟨"b", none, none, some "g"⟩ ⟨[], some "t2"⟩,
       .success ⟨"b", some 9, some "SUCCEEDED", some "g"⟩ ⟨[], some "t3"⟩,
       .success ⟨"b", some 9, some "SUCCEEDED", some "g"⟩ ⟨[], some "t4"⟩,
       .success ⟨"b", some 9, some "SUCCEEDED", some "g"⟩ ⟨[], some "t5"⟩]).result =
      .finished ⟨"b", some 9, some "SUCCEEDED", some "g"⟩ ∧
    (waitForBuildEndTime ⟨"b", none, none, some "g"⟩ ⟨30000, 15000, false⟩
      [.success ⟨"b", none, none, some "g"⟩ ⟨["a"], some "t1"⟩,
       .success ⟨"b", none, none, some "g"⟩ ⟨[], some "t2"⟩,
       .success ⟨"b", some 9, some "SUCCEEDED", some "g"⟩ ⟨[], some "t3"⟩,
       .success ⟨"b", some 9, some "SUCCEEDED", some "g"⟩ ⟨[], some "t4"⟩,
       .success ⟨"b", some 9, some "SUCCEEDED", some "g"⟩ ⟨[], some "t5"⟩]).remaining.length
      = 2 := by decide

theorem lookup_of_mem_nodup {β : Type} :
    ∀ (l : List (String × β)) (k : String) (v : β),
      (k, v) ∈ l → (l.map Prod.fst).Nodup → l.lookup k = some v := by
  intro l
  induction l with
  | nil =>
    intro k v hmem _
    simp at hmem
  | cons p rest ih =>
    intro k v hmem hnd
    obtain ⟨k0, v0⟩ := p
    rw [List.map_cons] at hnd
    rcases List.mem_cons.mp hmem with he | hm
    · have hkv : k = k0 ∧ v = v0 := by simpa using he
      obtain ⟨rfl, rfl⟩ := hkv
      simp [List.lookup]
    · have hkne : k ≠ k0 := by
        rintro rfl
        exact (List.nodup_cons.mp hnd).1 (List.mem_map.mpr ⟨(k, v), hm, rfl⟩)
      rw [show List.lookup k ((k0, v0) :: rest) = List.lookup k rest from by
        simp [List.lookup, beq_false_of_ne hkne]]
      exact ih k v hm (List.nodup_cons.mp hnd).2

/-- C6: every entry of the `environmentVariablesOverride` list produced
by `inputs2Parameters` has a name that either starts with `"GITHUB_"`
with automatic passthrough not disabled, or belongs to the explicit
passthrough set; no entry with any other name appears, no two entries
share a name, and every entry is `"PLAINTEXT"`-typed with the value the
environment maps its name to. -/
theorem inputs2Parameters_env_filter (inputs : Inputs) (env : List (String × String))
    (hnd : (env.map Prod.fst).Nodup) :
    (∀ e ∈ (inputs2Parameters inputs env).environmentVariablesOverride,
      ((inputs.disableGithubEnvVars = false ∧ jsStartsWith e.name "GITHUB_" = true) ∨
        e.name ∈ inputs.envPassthrough) ∧
      e.type = "PLAINTEXT" ∧ env.lookup e.name = some e.value) ∧
    ((inputs2Parameters inputs env).environmentVariablesOverride.map EnvVar.name).Nodup := by
  constructor
  · intro e he
    simp only [inputs2Parameters] at he
    rw [List.mem_map] at he
    obtain ⟨⟨k, v⟩, hkv, rfl⟩ := he
    rw [List.mem_filter] at hkv
    obtain ⟨hmem, hcond⟩ := hkv
    refine ⟨?_, rfl, ?_⟩
    · rw [Bool.or_eq_true, Bool.and_eq_true] at hcond
      rcases hcond with ⟨hdis, hsw⟩ | hct
      · exact Or.inl ⟨by simpa using hdis, hsw⟩
      · exact Or.inr (List.elem_iff.mp hct)
    · exact lookup_of_mem_nodup env k v hmem hnd
  · simp only [inputs2Parameters]
    rw [List.map_map]
    exact hnd.sublist ((List.filter_sublist env).map Prod.fst)

/-- Witness for C6 on a concrete environment and input bag. -/
theorem inputs2Parameters_env_filter_witness :
    (∀ e ∈ (inputs2Parameters sampleInputs sampleEnv).environmentVariablesOverride,
      ((sampleInputs.disableGithubEnvVars = false ∧ jsStartsWith e.name "GITHUB_" = true) ∨
        e.name ∈ sampleInputs.envPassthrough) ∧
      e.type = "PLAINTEXT" ∧ sampleEnv.lookup e.name = some e.value) ∧
    ((inputs2Parameters sampleInputs sampleEnv).environmentVariablesOverride.map
      EnvVar.name).Nodup :=
  inputs2Parameters_env_filter sampleInputs sampleEnv (by decide)

/-- C9 counterexample.  `inputs2Parameters` performs no validation: fed
an input bag with no project name it does not fail — it produces a
start-build request whose `projectName` is simply absent. -/
theorem inputs2Parameters_no_validation :
    (inputs2Parameters noNameInputs []).projectName = none ∧
    inputs2Parameters noNameInputs [] =
      ⟨none, some "abc123", some "GITHUB", some "https://github.com/o/r.git",
       none, none, none, none, none, none, []⟩ := by decide

/-- C9 (amended): the missing-project-name failure lives upstream of
`inputs2Parameters`: `githubInputs` reads `project-name` as a required
input, so when the action-input table carries no (or an empty) value for
it the whole input-parsing step fails with the required-input error
before any start-build request is built. -/
theorem githubInputs_missing_project_name (raw env : List (String × String))
    (owner repo : String) (prHeadSha : Option String)
    (h : (raw.lookup "project-name").getD "" = "") :
    githubInputs raw env owner repo prHeadSha =
      .error "Input required and not supplied: project-name" := by
  have hc : coreGetInput raw "project-name" true =
      .error "Input required and not supplied: project-name" := by
    simp [coreGetInput, h, show ("" : String).isEmpty = true from by decide]
  simp only [githubInputs, hc]
  rfl

/-- Witness for C9 (amended): an empty action-input table. -/
theorem githubInputs_missing_project_name_witness :
    githubInputs [] [("GITHUB_SHA", "abc")] "o" "r" none =
      .error "Input required and not supplied: project-name" :=
  githubInputs_missing_project_name [] [("GITHUB_SHA", "abc")] "o" "r" none (by decide)

/-- C5 counterexample.  After a throttled retry of a hidden-logs run
whose build record has no CloudWatch ARN, the next iteration still does
not issue a log fetch, and a non-empty scripted batch emits nothing — so
"every iteration after the first throttle event issues log fetches and
emits log events" does not hold unconditionally. -/
theorem throttle_hidden_no_group_counterexample :
    shouldFetchLogs (throttleState
      ⟨⟨"b", none, none, none⟩, ⟨30000, 15000, true⟩, 0, 0, 0, none⟩ 5) = false ∧
    (pollLoop (throttleState
        ⟨⟨"b", none, none, none⟩, ⟨30000, 15000, true⟩, 0, 0, 0, none⟩ 5)
      [.success ⟨"b", none, none, none⟩ ⟨["x"], none⟩]).output = [] := by decide
